import Mathlib

/-!
Verification development for the riakkit document persistence engine
(`riakkit/document.py`).

The engine is shallowly embedded: Python dicts become association lists,
the Riak store and the per-field unique registries become explicit state,
and the identity cache (`cls.instances`, a WeakValueDictionary) becomes a
map from keys to instance identifiers, with a heap mapping instance
identifiers to document states.  Raised exceptions become explicit error
values threaded alongside the state; a raise that happens before any
mutation returns the input state unchanged, matching CPython's unwinding.

Two representative schemas are embedded.  The `U` family models a
document class whose schema is scalar fields, some unique (`save`'s
reference loop is vacuous there); the `A`/`B` family models a class `A`
declaring a `ReferenceProperty` to class `B` with collection name
`items`, exercising the reference-reconciliation and back-reference
machinery.
-/

set_option autoImplicit false

namespace Riakkit

/-! ## Association-list primitives

Python `dict.__setitem__` / bucket writes become `aset` (replace the
value at an existing key, else append); deletions become `adel`; reads
become `alookup` (`dict.get` composed with `Option.join` where the
stored value is itself optional). -/

section Assoc

variable {α : Type} {β : Type} [DecidableEq α]

/-- Read the value stored at key `k`, if any. -/
def alookup (l : List (α × β)) (k : α) : Option β :=
  match l with
  | [] => none
  | (a, b) :: t => if a = k then some b else alookup t k

/-- Set key `k` to value `v`: replace in place if present, else append. -/
def aset (l : List (α × β)) (k : α) (v : β) : List (α × β) :=
  match l with
  | [] => [(k, v)]
  | (a, b) :: t => if a = k then (k, v) :: t else (a, b) :: aset t k v

/-- Delete every entry whose key is `k`. -/
def adel (l : List (α × β)) (k : α) : List (α × β) :=
  match l with
  | [] => []
  | (a, b) :: t => if a = k then adel t k else (a, b) :: adel t k

end Assoc

deriving instance DecidableEq for Except

/-! ## C1 — schema registry: per-type metadata merge

`DocumentMetaclass.__new__` (document.py lines 59-92) first inserts the
class's own declared properties into the fresh `meta` dict / `uniques`
list, and only then folds the ancestors in:

    all_parents = reversed(walkParents(parents))
    for p_cls in all_parents:
      meta.update(p_cls._meta)
      uniques.extend(p_cls._uniques)

A property descriptor is modelled by an opaque tag so that name
collisions between distinct descriptors are observable. -/

/-- A property descriptor, identified by an opaque tag (which descriptor
object ended up in the merged metadata is all the merge claims need). -/
structure PropD where
  tag : Nat
  deriving DecidableEq, Repr

/-- Python `dict.update`: every entry of `upd` is written into `m`,
overwriting the value at an existing key. -/
def updD (m upd : List (String × PropD)) : List (String × PropD) :=
  upd.foldl (fun acc p => aset acc p.1 p.2) m

/-- `DocumentMetaclass.__new__` metadata merge (document.py lines 59-86):
`declared` is the class body's own properties (inserted first), and
`parentMetas` lists the ancestors' `_meta` dicts.

Modelled from the spec: `walkParents` (imported from `riakkit.commons`,
not under `src/`) yields the ancestor classes; per spec §4.1 the code's
`reversed(walkParents(parents))` processes them oldest-ancestor-first, so
`parentMetas` here is given oldest-ancestor-first. -/
def buildMeta (declared : List (String × PropD))
    (parentMetas : List (List (String × PropD))) : List (String × PropD) :=
  parentMetas.foldl updD declared

/-- `DocumentMetaclass.__new__` uniques collection (document.py lines
60-86): the class's own unique field names are collected first and each
ancestor's `_uniques` list is appended afterwards (`uniques.extend`),
ancestors oldest-first as in `buildMeta`. -/
def buildUniques (declaredUniques : List String)
    (parentUniques : List (List String)) : List String :=
  parentUniques.foldl (fun acc u => acc ++ u) declaredUniques

/-! ## The document engine over a scalar schema

A document class whose schema consists of scalar fields, some of which
are unique (`_uniques` is the class parameter; `_references` is empty, so
`save`'s reference loop is vacuous).  Serialization of scalar fields is
the identity on the raw mapping (modelled from the spec §6: a record's
payload is a flat mapping from field name to a primitively-encodable
value), so a record and a field mapping share one representation. -/

/-- A raw record / field mapping: field name to value-or-nil
(`None` is a legal stored value, distinct from a present string). -/
abbrev Rec := List (String × Option String)

/-- The exceptions the embedded operations raise: `NotFoundError`,
construction-time `KeyError`, and the `ValueError` that `save` raises on
a unique-constraint violation (document.py line 190; the spec calls this
`UniqueConstraintError`). -/
inductive UErr where
  | notFound
  | keyError
  | valueErr
  deriving DecidableEq, Repr

/-- One in-memory document instance: `id` is the Python object identity,
`key` the storage key, `data` the `_data` field mapping, `obj` the
backing record's data (`self._obj`, `None` when unpersisted), `saved`
the `_saved` flag. -/
structure UDoc where
  id : Nat
  key : String
  data : Rec
  obj : Option Rec
  saved : Bool
  deriving DecidableEq, Repr

/-- One per-field unique registry bucket: registry entries are keyed by
the unique field's value (line 261 passes `self._data[name]`, which may
be nil, as the registry key) and their payload records the owning
document's key. -/
abbrev RegBucket := List (Option String × String)

/-- The world a document class operates in: the identity cache
(`cls.instances`, key to instance id), the heap of live instances, the
main bucket (key to stored record) and the per-unique-field registry
buckets. `nextId` feeds fresh instance identities. -/
structure UWorld where
  instances : List (String × Nat)
  heap : List (Nat × UDoc)
  main : List (String × Rec)
  reg : List (String × RegBucket)
  nextId : Nat
  deriving DecidableEq, Repr

/-- Placeholder instance used to totalize heap lookups; every theorem
hypothesizes the instance is live, so it never matters. -/
def dummyU : UDoc := ⟨0, "", [], none, false⟩

/-- Python `self._data.get(name, None)`: absent and `None` coincide. -/
def getData (d : UDoc) (name : String) : Option String :=
  (alookup d.data name).join

/-- `record.get(name, None)` on a raw record. -/
def getRec (r : Rec) (name : String) : Option String :=
  (alookup r name).join

/-- Registry read: the payload stored under registry key `k` in field
`name`'s unique bucket (the owning document's key), if the entry exists
(`unique_bucket.get(k).exists()`). -/
def regLookup (rg : List (String × RegBucket)) (name : String)
    (k : Option String) : Option String :=
  alookup ((alookup rg name).getD []) k

/-- Registry write (`unique_bucket.new(k, {"key": owner}).store()`). -/
def regSet (rg : List (String × RegBucket)) (name : String)
    (k : Option String) (owner : String) : List (String × RegBucket) :=
  aset rg name (aset ((alookup rg name).getD []) k owner)

/-- Registry delete (`unique_bucket.get(k).delete()`). -/
def regDel (rg : List (String × RegBucket)) (name : String)
    (k : Option String) : List (String × RegBucket) :=
  aset rg name (adel ((alookup rg name).getD []) k)

/-- The `uniquesToBeDeleted` entries one unique field contributes during
`Document.save`'s unique loop (document.py lines 172-185): the previous
stored value is scheduled for registry deletion when the current value
is nil and the previous value was not, or when both are non-nil and
differ. -/
def uniqDels (d : UDoc) (name : String) : List (String × String) :=
  match d.obj with
  | none => []
  | some r =>
    match getData d name, getRec r name with
    | none, some ov => [(name, ov)]
    | some v, some ov => if v ≠ ov then [(name, ov)] else []
    | _, none => []

/-- The `changed` flag of `Document.save`'s unique loop (document.py
lines 180-187): true when the document has no backing record, or when
the backing record's previous value is non-nil and differs from the
current value.  Note the previous-value-nil case of a persisted document
leaves `changed` false (the `originalValue is not None` conjunct of line
183 guards the whole branch). -/
def uniqChanged (d : UDoc) (name : String) : Bool :=
  match d.obj with
  | none => true
  | some r =>
    match getRec r name with
    | some ov =>
      match getData d name with
      | some v => v ≠ ov
      | none => false
    | none => false

/-- The unique-reconciliation loop of `Document.save` (document.py lines
172-190), processing `_uniques` in order.  Returns the accumulated
`uniquesToBeDeleted` pairs, or the `ValueError` of line 190 when a
changed field's non-nil current value already has a registry entry. -/
def uniqPhase (rg : List (String × RegBucket)) (d : UDoc) :
    List String → Except UErr (List (String × String))
  | [] => .ok []
  | name :: rest =>
    if (getData d name).isSome ∧ uniqChanged d name
        ∧ (regLookup rg name (getData d name)).isSome then
      .error .valueErr
    else
      (uniqPhase rg d rest).map (uniqDels d name ++ ·)

/-- The registry-write loop of `Document.save` (document.py lines
260-262): after the main record is stored, a registry entry pointing at
the saving document is written for every unique field's current value,
changed or not, nil or not. -/
def insFold (d : UDoc) (uniques : List String)
    (rg : List (String × RegBucket)) : List (String × RegBucket) :=
  uniques.foldl (fun acc name => regSet acc name (getData d name) d.key) rg

/-- The registry-delete loop of `Document.save` (document.py lines
264-265): the scheduled `uniquesToBeDeleted` entries are deleted after
the main record and the new registry entries are committed. -/
def delFold (dels : List (String × String))
    (rg : List (String × RegBucket)) : List (String × RegBucket) :=
  dels.foldl (fun acc p => regDel acc p.1 (some p.2)) rg

/-- `Document.save` (document.py lines 158-272) for a scalar schema with
unique fields `uniques` (the reference loop is vacuous and there are no
cascade saves).  In order: serialize (identity on scalars), unique
reconciliation (may raise; the raise happens before any write, so the
returned world is the input world), commit the main record under the
document's key, write a registry entry for every unique field's current
value, delete the superseded entries, update `_obj` and set `_saved`. -/
def saveU (uniques : List String) (i : Nat) (w : UWorld) :
    Option UErr × UWorld :=
  let d := (alookup w.heap i).getD dummyU
  let dataToBeSaved := d.data
  match uniqPhase w.reg d uniques with
  | .error e => (some e, w)
  | .ok dels =>
    let main1 := aset w.main d.key dataToBeSaved
    let reg2 := delFold dels (insFold d uniques w.reg)
    let d1 := { d with obj := some dataToBeSaved, saved := true }
    (none, { w with main := main1, reg := reg2, heap := aset w.heap i d1 })

/-- `Document.reload` (document.py lines 274-295): `NotFoundError` when
the document holds no backing record; otherwise refresh the backing
record from the store and re-populate `_data` from it (scalar
deserialization copies the raw mapping). -/
def reloadU (i : Nat) (w : UWorld) : Option UErr × UWorld :=
  let d := (alookup w.heap i).getD dummyU
  match d.obj with
  | none => (some .notFound, w)
  | some _ =>
    let r := (alookup w.main d.key).getD []
    let d1 := { d with data := r, obj := some r, saved := true }
    (none, { w with heap := aset w.heap i d1 })

/-- The registry-delete loop of `Document.delete` (document.py lines
329-332): for every unique field whose current in-memory value is
non-nil, the registry entry keyed by that value is deleted (whoever owns
it). -/
def delFoldU (d : UDoc) (uniques : List String)
    (rg : List (String × RegBucket)) : List (String × RegBucket) :=
  uniques.foldl
    (fun acc name =>
      match getData d name with
      | some v => regDel acc name (some v)
      | none => acc) rg

/-- `Document.delete` (document.py lines 297-338) for a scalar schema
(the back-reference loop is vacuous): no-op without a backing record;
otherwise pop the key from the identity cache, delete the main record,
run the registry-delete loop, clear `_obj` and `_saved`. -/
def deleteU (uniques : List String) (i : Nat) (w : UWorld) : UWorld :=
  let d := (alookup w.heap i).getD dummyU
  match d.obj with
  | none => w
  | some _ =>
    { w with instances := adel w.instances d.key,
             main := adel w.main d.key,
             reg := delFoldU d uniques w.reg,
             heap := aset w.heap i { d with obj := none, saved := false } }

/-- The value a key argument resolves to: a proper string key or an
object that is not a string (`isinstance(key, basestring)` fails). -/
inductive KV where
  | str (s : String)
  | notStr

/-- The `key` argument of `Document.__init__`: a literal value or a key
generator invoked with the initial fields (`if callable(key)`). -/
inductive KeyIn where
  | lit (v : KV)
  | gen (f : Rec → KV)

/-- Key resolution at the top of `Document.__init__` (lines 138-139). -/
def resolveKey (k : KeyIn) (fields : Rec) : KV :=
  match k with
  | .lit v => v
  | .gen f => f fields

/-- `Document.__init__` (document.py lines 126-156): resolve the key,
raise `KeyError` when it is not a string or when a live instance with
that key is already in the identity cache; otherwise build the instance
(fetching the backing record when `saved`; `BaseDocument.__init__` is
modelled from the spec as installing the initial fields) and register it
in the identity cache as the final step. -/
def initU (k : KeyIn) (fields : Rec) (saved : Bool) (w : UWorld) :
    Except UErr Nat × UWorld :=
  match resolveKey k fields with
  | .notStr => (.error .keyError, w)
  | .str key =>
    if (alookup w.instances key).isSome then
      (.error .keyError, w)
    else
      let obj := if saved then some ((alookup w.main key).getD []) else none
      let d : UDoc := ⟨w.nextId, key, fields, obj, saved⟩
      (.ok w.nextId,
       { w with heap := aset w.heap w.nextId d,
                instances := aset w.instances key w.nextId,
                nextId := w.nextId + 1 })

/-- `Document.load` (document.py lines 362-404) for the scalar schema,
by key: a cache hit returns the cached instance (after a `reload` when
`cached` is false); a cache miss fetches the record (`NotFoundError`
when absent), constructs a fresh instance via `cls(key, saved=True)`,
re-registers it, and populates `_data` and `_obj` from the record. -/
def loadU (key : String) (cached : Bool) (w : UWorld) :
    Except UErr Nat × UWorld :=
  match alookup w.instances key with
  | some i =>
    if cached then (.ok i, w)
    else
      match reloadU i w with
      | (some e, w1) => (.error e, w1)
      | (none, w1) => (.ok i, w1)
  | none =>
    match alookup w.main key with
    | none => (.error .notFound, w)
    | some r =>
      match initU (.lit (.str key)) [] true w with
      | (.ok i, w1) =>
        let d := (alookup w1.heap i).getD dummyU
        let d1 := { d with data := r, obj := some r, saved := true }
        (.ok i, { w1 with heap := aset w1.heap i d1,
                          instances := aset w1.instances key i })
      | (.error e, w1) => (.error e, w1)

/-! ## The document engine over a reference schema

Class `A` declares a single `ReferenceProperty` (field `b`) to class
`B` with `collection_name = "items"`; the metaclass therefore installs a
back-reference `MultiReferenceProperty` named `items` on `B`.  `A` has
`_references = ["b"]` and no uniques; `B` has no declared references and
no uniques, so `B.save` is a plain store.  In-memory reference fields
hold live document instances (modelled by instance identifiers into the
heaps); serialized reference fields hold foreign keys (modelled from the
spec §6). -/

/-- Load failures in the reference world (`NotFoundError`). -/
inductive RErr where
  | notFound
  deriving DecidableEq, Repr

/-- An in-memory instance of class `A`: `bref` is the `b` reference
field (a live `B` instance or `None`); `obj` is the backing record's
serialized `b` value (a `B` key or nil). -/
structure ADoc where
  id : Nat
  key : String
  bref : Option Nat
  obj : Option (Option String)
  saved : Bool
  deriving DecidableEq, Repr

/-- An in-memory instance of class `B`: `items` is the back-reference
collection (live `A` instances); `obj` is the backing record's
serialized `items` value (a list of `A` keys). -/
structure BDoc where
  id : Nat
  key : String
  items : List Nat
  obj : Option (List String)
  saved : Bool
  deriving DecidableEq, Repr

/-- The world the two classes operate in: per-class heaps, identity
caches and buckets, plus the fresh-identity counter. -/
structure RWorld where
  heapA : List (Nat × ADoc)
  heapB : List (Nat × BDoc)
  cacheA : List (String × Nat)
  cacheB : List (String × Nat)
  bucketA : List (String × Option String)
  bucketB : List (String × List String)
  nextId : Nat
  deriving DecidableEq, Repr

/-- Placeholder `A` instance totalizing heap lookups. -/
def dummyA : ADoc := ⟨0, "", none, none, false⟩

/-- Placeholder `B` instance totalizing heap lookups. -/
def dummyB : BDoc := ⟨0, "", [], none, false⟩

/-- The live `A` instance behind identifier `i`. -/
def getA (w : RWorld) (i : Nat) : ADoc := (alookup w.heapA i).getD dummyA

/-- The live `B` instance behind identifier `j`. -/
def getB (w : RWorld) (j : Nat) : BDoc := (alookup w.heapB j).getD dummyB

/-- The storage key of the `A` instance behind identifier `i`
(`doc.key` on a collection member). -/
def keyOfA (w : RWorld) (i : Nat) : String := (getA w i).key

/-- The storage key of the `B` instance behind identifier `j`. -/
def keyOfB (w : RWorld) (j : Nat) : String := (getB w j).key

/-! `Document.load` specialized to `cached=True` (document.py lines
362-404) for the two classes, together with recursion-safe
deserialization.  A cache hit returns the cached instance; a cache miss
with no stored record is `NotFoundError`; otherwise a placeholder
instance is constructed and registered in the cache before its reference
fields are populated (the placeholder protocol of lines 386-394), so a
reentrant load of the same key terminates on the cache hit.  `fuel`
bounds the construction depth; it is an artifact of the embedding (the
cache-hit and absent-record paths never consume it) and every theorem
stays on those paths.

Deserialization of reference fields is modelled from the spec §4.5:
populating a field encoded as a foreign key recursively loads the
referenced document from the cache (per the comment at lines 386-391),
skipping entries whose load fails. -/

mutual

/-- Cached load for class `B` (see the comment block above). -/
def loadBC (fuel : Nat) (k : String) (w : RWorld) : Except RErr Nat × RWorld :=
  match alookup w.cacheB k with
  | some j => (.ok j, w)
  | none =>
    match alookup w.bucketB k with
    | none => (.error .notFound, w)
    | some r =>
      match fuel with
      | 0 => (.error .notFound, w)
      | f + 1 =>
        let j := w.nextId
        let b0 : BDoc := ⟨j, k, [], some r, true⟩
        let w1 : RWorld := { w with heapB := aset w.heapB j b0,
                                    cacheB := aset w.cacheB k j,
                                    nextId := j + 1 }
        let p := deserItems f r w1
        let b1 : BDoc := { getB p.2 j with items := p.1, obj := some r }
        (.ok j, { p.2 with heapB := aset p.2.heapB j b1 })
termination_by (fuel, 0, 0)

/-- Deserialization of a `B` record's `items` list of `A` keys into live
`A` instances (see `loadBC`). -/
def deserItems (f : Nat) (r : List String) (w : RWorld) : List Nat × RWorld :=
  match r with
  | [] => ([], w)
  | ak :: t =>
    match loadAC f ak w with
    | (.ok i, w1) =>
      let p := deserItems f t w1
      (i :: p.1, p.2)
    | (.error _, w1) => deserItems f t w1
termination_by (f, 1, r.length)

/-- `Document.load` specialized to `cached=True` for class `A` (see
`loadBC`). -/
def loadAC (fuel : Nat) (k : String) (w : RWorld) : Except RErr Nat × RWorld :=
  match alookup w.cacheA k with
  | some i => (.ok i, w)
  | none =>
    match alookup w.bucketA k with
    | none => (.error .notFound, w)
    | some r =>
      match fuel with
      | 0 => (.error .notFound, w)
      | f + 1 =>
        let i := w.nextId
        let a0 : ADoc := ⟨i, k, none, some r, true⟩
        let w1 : RWorld := { w with heapA := aset w.heapA i a0,
                                    cacheA := aset w.cacheA k i,
                                    nextId := i + 1 }
        let p : Option Nat × RWorld :=
          match r with
          | none => (none, w1)
          | some bk =>
            match loadBC f bk w1 with
            | (.ok j, w2) => (some j, w2)
            | (.error _, w2) => (none, w2)
        let a1 : ADoc := { getA p.2 i with bref := p.1, obj := some r }
        (.ok i, { p.2 with heapA := aset p.2.heapA i a1 })
termination_by (fuel, 0, 0)

end

/-- The linear search and pop of `Document.save`'s removal pass
(document.py lines 242-248): remove the first collection member whose
key equals the saving document's key; `none` when no member matches. -/
def popFirstKey (w : RWorld) (selfKey : String) : List Nat → Option (List Nat)
  | [] => none
  | ai :: t =>
    if keyOfA w ai == selfKey then some t
    else (popFirstKey w selfKey t).map (ai :: ·)

/-- `Document.save` for class `B` (no uniques, no declared references):
serialize the collection to the member keys, store, update `_obj`, set
`_saved`.  This is what a cascade save of a back-referenced document
performs. -/
def saveB (j : Nat) (w : RWorld) : RWorld :=
  let b := getB w j
  let ser := b.items.map (keyOfA w)
  { w with bucketB := aset w.bucketB b.key ser,
           heapB := aset w.heapB j { b with obj := some ser, saved := true } }

/-- The removal pass of `Document.save`'s reference loop (document.py
lines 228-248): every previously-referenced key no longer referenced is
loaded (`load(dockey, True)`; a `NotFoundError` is swallowed and the key
skipped), the saving document is popped from its collection by key
equality, and a modified document is queued for cascade save. -/
def removePrev (fuel : Nat) (selfKey : String) (dockeys : List String) :
    List String → RWorld → RWorld × List Nat
  | [], w => (w, [])
  | bk :: t, w =>
    if bk ∈ dockeys then removePrev fuel selfKey dockeys t w
    else
      match loadBC fuel bk w with
      | (.error _, w1) => removePrev fuel selfKey dockeys t w1
      | (.ok j, w1) =>
        let b := getB w1 j
        match popFirstKey w1 selfKey b.items with
        | none => removePrev fuel selfKey dockeys t w1
        | some items1 =>
          let w2 : RWorld :=
            { w1 with heapB := aset w1.heapB j { b with items := items1 } }
          let p := removePrev fuel selfKey dockeys t w2
          (p.1, j :: p.2)

/-- The previous-version key list of `Document.save`'s reference loop
(document.py lines 194-201): the backing record's serialized `b` value
read as a list — nil and absent give the empty list, a single key gives
a singleton. -/
def origOf (a : ADoc) : List String :=
  match a.obj with
  | none => []
  | some none => []
  | some (some bk) => [bk]

/-- `Document.save` for class `A` (document.py lines 158-272; no
uniques, one reference field `b` with collection name `items`).  In
order: serialize `b` to the referenced key; forward pass (lines
211-226): when the referenced `B` instance's collection has no member
with the saving document's key, append the saving document and queue the
`B` instance for cascade save; removal pass (`removePrev` over
`origOf`); commit the main record; update `_obj`, set `_saved`;
cascade-save the queued documents. -/
def saveA (fuel : Nat) (i : Nat) (w : RWorld) : RWorld :=
  let a := getA w i
  let dataToBeSaved : Option String := a.bref.map (keyOfB w)
  let originalValues : List String := origOf a
  let fwd : RWorld × List Nat :=
    match a.bref with
    | none => (w, [])
    | some j =>
      let b := getB w j
      if b.items.any (fun ai => keyOfA w ai == a.key) then (w, [])
      else
        ({ w with heapB := aset w.heapB j { b with items := b.items ++ [i] } },
         [j])
  let dockeys : List String :=
    match a.bref with
    | none => []
    | some j => [keyOfB w j]
  let rem := removePrev fuel a.key dockeys originalValues fwd.1
  let w3 : RWorld :=
    { rem.1 with
        bucketA := aset rem.1.bucketA a.key dataToBeSaved,
        heapA := aset rem.1.heapA i
          { a with obj := some dataToBeSaved, saved := true } }
  (fwd.2 ++ rem.2).foldl (fun wacc j => saveB j wacc) w3

/-- The number of members of a back-reference collection whose key is
`k` (collection membership is decided by key equality in both the
forward-pass linear search, line 218-222, and the removal-pass pop). -/
def countKeyA (w : RWorld) (k : String) (l : List Nat) : Nat :=
  l.countP (fun ai => keyOfA w ai == k)

/-! ## Concrete worlds used by per-claim counterexamples and witnesses -/

/-- C2's failing input: document `a` is persisted with a nil previous
value for unique field `email`, has set `email` to `"x"` in memory, and
document `b` owns the live registry entry for `"x"`. -/
def c2World : UWorld :=
  ⟨[("a", 0)],
   [(0, ⟨0, "a", [("email", some "x")], some [("email", none)], true⟩)],
   [("a", [("email", none)])],
   [("email", [(some "x", "b")])],
   1⟩

/-- C3's witness input: an unpersisted document whose unique value
collides with a live registry entry, so `save` raises. -/
def c3World : UWorld :=
  ⟨[("a", 0)],
   [(0, ⟨0, "a", [("u", some "x")], none, false⟩)],
   [],
   [("u", [(some "x", "b")])],
   1⟩

/-- C4's input: document `a` is persisted and its unique field `u` is
unchanged (`"x"` both in memory and in the backing record), while the
registry entry for `"x"` is owned by `b`. -/
def c4World : UWorld :=
  ⟨[("a", 0)],
   [(0, ⟨0, "a", [("u", some "x")], some [("u", some "x")], true⟩)],
   [("a", [("u", some "x")])],
   [("u", [(some "x", "b")])],
   1⟩

/-- C5's witness world: `A` (id 0, key `a`, unpersisted) references `B`
(id 1, key `b`, persisted with an empty collection). -/
def c5World : RWorld :=
  ⟨[(0, ⟨0, "a", some 1, none, false⟩)],
   [(1, ⟨1, "b", [], some [], true⟩)],
   [("a", 0)], [("b", 1)],
   [], [("b", [])],
   2⟩

/-- C5's removal-scenario world: `A` (id 0) is persisted with its stored
`b` field naming key `b`, has dropped the reference in memory, and `B`
(id 1) currently lists `A` once. -/
def c5DropWorld : RWorld :=
  ⟨[(0, ⟨0, "a", none, some (some "b"), true⟩)],
   [(1, ⟨1, "b", [0], some ["a"], true⟩)],
   [("a", 0)], [("b", 1)],
   [("a", some "b")], [("b", ["a"])],
   2⟩

/-- C5's vanished-target world: `A`'s stored `b` field names key
`gone`, which is neither cached nor stored. -/
def c5GoneWorld : RWorld :=
  ⟨[(0, ⟨0, "a", none, some (some "gone"), true⟩)],
   [],
   [("a", 0)], [],
   [("a", some "gone")], [],
   1⟩

/-- C6's failing input: the identity cache holds a live never-persisted
instance for key `k`. -/
def c6World : UWorld :=
  ⟨[("k", 0)], [(0, ⟨0, "k", [], none, false⟩)], [], [], 1⟩

/-- C6's witness input: the identity cache holds a live persisted
instance for key `k` whose record is stored. -/
def c6HitWorld : UWorld :=
  ⟨[("k", 0)],
   [(0, ⟨0, "k", [("u", some "y")], some [("u", some "x")], true⟩)],
   [("k", [("u", some "x")])],
   [],
   1⟩

/-- C7's witness input: a persisted document whose field `u` was mutated
in memory (`"z"`) away from its stored value (`"x"`). -/
def c7World : UWorld :=
  ⟨[("k", 0)],
   [(0, ⟨0, "k", [("u", some "z")], some [("u", some "x")], true⟩)],
   [("k", [("u", some "x")])],
   [],
   1⟩

/-- C8's input: document `a` is persisted owning registry entry
`"x" → a`, but its unique field was mutated in memory to `"y"`, whose
registry entry is owned by `b`. -/
def c8World : UWorld :=
  ⟨[("a", 0)],
   [(0, ⟨0, "a", [("u", some "y")], some [("u", some "x")], true⟩)],
   [("a", [("u", some "x")])],
   [("u", [(some "x", "a"), (some "y", "b")])],
   1⟩

/-- C9's witness world: an empty world plus one cached instance under
key `taken`. -/
def c9World : UWorld :=
  ⟨[("taken", 7)], [(7, ⟨7, "taken", [], none, false⟩)], [], [], 8⟩

/-- C10's witness input: a persisted document with one unique field,
cached under its key. -/
def c10World : UWorld :=
  ⟨[("k", 0)],
   [(0, ⟨0, "k", [("u", some "x")], some [("u", some "x")], true⟩)],
   [("k", [("u", some "x")])],
   [("u", [(some "x", "k")])],
   1⟩

/-! ## Lemmas about the association-list primitives -/

section AssocLemmas

variable {α : Type} {β : Type} [DecidableEq α]

theorem alookup_cons (a : α) (b : β) (t : List (α × β)) (k : α) :
    alookup ((a, b) :: t) k = if k = a then some b else alookup t k := by
  by_cases h : k = a
  · subst h
    simp [alookup]
  · have ha : ¬ a = k := fun hak => h hak.symm
    simp [alookup, h, ha]

@[simp] theorem alookup_aset_self (l : List (α × β)) (k : α) (v : β) :
    alookup (aset l k v) k = some v := by
  induction l with
  | nil => simp [aset, alookup_cons]
  | cons p t ih =>
    obtain ⟨a, b⟩ := p
    by_cases h : a = k
    · simp [aset, h, alookup_cons]
    · simp [aset, h, alookup_cons, Ne.symm h, ih]

theorem alookup_aset_ne (l : List (α × β)) (k k' : α) (v : β) (h : k' ≠ k) :
    alookup (aset l k v) k' = alookup l k' := by
  induction l with
  | nil => simp [aset, alookup_cons, h]
  | cons p t ih =>
    obtain ⟨a, b⟩ := p
    by_cases ha : a = k
    · subst ha
      simp [aset, alookup_cons, h]
    · simp [aset, ha, alookup_cons, ih]

theorem alookup_adel (l : List (α × β)) (k k' : α) :
    alookup (adel l k) k' = if k' = k then none else alookup l k' := by
  induction l with
  | nil => simp [adel, alookup]
  | cons p t ih =>
    obtain ⟨a, b⟩ := p
    by_cases ha : a = k
    · subst ha
      rw [show adel ((a, b) :: t) a = adel t a from by simp [adel]]
      by_cases hk : k' = a
      · rw [ih, if_pos hk, if_pos hk]
      · rw [ih, if_neg hk, if_neg hk, alookup_cons, if_neg hk]
    · by_cases hk : k' = a
      · subst hk
        have hne : ¬ k' = k := ha
        simp [adel, ha, alookup_cons, ih, hne]
      · simp [adel, ha, alookup_cons, hk, ih]

@[simp] theorem alookup_adel_self (l : List (α × β)) (k : α) :
    alookup (adel l k) k = none := by
  simp [alookup_adel]

theorem alookup_adel_ne (l : List (α × β)) (k k' : α) (h : k' ≠ k) :
    alookup (adel l k) k' = alookup l k' := by
  simp [alookup_adel, h]

end AssocLemmas

/-! ## Lemmas about the unique registry -/

theorem regLookup_regSet_self (rg : List (String × RegBucket)) (n : String)
    (k : Option String) (v : String) :
    regLookup (regSet rg n k v) n k = some v := by
  simp only [regLookup, regSet, alookup_aset_self, Option.getD_some]

theorem regLookup_regSet_ne_name (rg : List (String × RegBucket))
    (n n' : String) (k k' : Option String) (v : String) (h : n' ≠ n) :
    regLookup (regSet rg n k v) n' k' = regLookup rg n' k' := by
  simp only [regLookup, regSet]
  rw [alookup_aset_ne _ _ _ _ h]

theorem regLookup_regSet_ne_key (rg : List (String × RegBucket))
    (n n' : String) (k k' : Option String) (v : String) (h : k' ≠ k) :
    regLookup (regSet rg n k v) n' k' = regLookup rg n' k' := by
  by_cases hn : n' = n
  · subst hn
    simp only [regLookup, regSet, alookup_aset_self, Option.getD_some]
    exact alookup_aset_ne _ _ _ _ h
  · exact regLookup_regSet_ne_name rg n n' k k' v hn

theorem regLookup_regDel (rg : List (String × RegBucket)) (n n' : String)
    (k k' : Option String) :
    regLookup (regDel rg n k) n' k' =
      if n' = n ∧ k' = k then none else regLookup rg n' k' := by
  by_cases hn : n' = n
  · subst hn
    simp only [regLookup, regDel, alookup_aset_self, Option.getD_some]
    rw [alookup_adel]
    by_cases hk : k' = k
    · simp [hk]
    · simp [hk, regLookup]
  · simp only [regLookup, regDel]
    rw [alookup_aset_ne _ _ _ _ hn]
    simp [hn, regLookup]

/-! ## Lemmas about save's registry-write and registry-delete loops -/

theorem insFold_lookup (d : UDoc) (name : String) :
    ∀ (l : List String) (rg : List (String × RegBucket)),
      regLookup (insFold d l rg) name (getData d name) =
        if name ∈ l then some d.key
        else regLookup rg name (getData d name) := by
  intro l
  induction l with
  | nil => intro rg; simp [insFold]
  | cons n t ih =>
    intro rg
    rw [show insFold d (n :: t) rg
          = insFold d t (regSet rg n (getData d n) d.key) from rfl]
    by_cases hn : n = name
    · subst hn
      rw [ih]
      by_cases hm : n ∈ t
      · simp [hm]
      · simp [hm, regLookup_regSet_self]
    · rw [ih]
      have hmem : (name ∈ n :: t) = (name ∈ t) := by
        simp [List.mem_cons, Ne.symm hn]
      by_cases hm : name ∈ t
      · simp [hm, hmem]
      · have h2 : ¬ name ∈ n :: t := by simp [List.mem_cons, Ne.symm hn, hm]
        simp [hm, h2, regLookup_regSet_ne_name _ _ _ _ _ _ (Ne.symm hn)]

theorem delFold_lookup_ne (name : String) (k : Option String) :
    ∀ (dels : List (String × String)) (rg : List (String × RegBucket)),
      (∀ p ∈ dels, p.1 = name → some p.2 ≠ k) →
      regLookup (delFold dels rg) name k = regLookup rg name k := by
  intro dels
  induction dels with
  | nil => intro rg _; simp [delFold]
  | cons p t ih =>
    intro rg h
    rw [show delFold (p :: t) rg = delFold t (regDel rg p.1 (some p.2)) from rfl]
    rw [ih _ (fun q hq => h q (List.mem_cons_of_mem p hq))]
    rw [regLookup_regDel]
    have hc : ¬ (name = p.1 ∧ k = some p.2) := by
      rintro ⟨h1, h2⟩
      exact h p (List.mem_cons_self p t) h1.symm h2.symm
    rw [if_neg hc]

theorem delFold_lookup_none (name : String) (k : Option String) :
    ∀ (dels : List (String × String)) (rg : List (String × RegBucket)),
      regLookup rg name k = none →
      regLookup (delFold dels rg) name k = none := by
  intro dels
  induction dels with
  | nil => intro rg h; simpa [delFold] using h
  | cons p t ih =>
    intro rg h
    rw [show delFold (p :: t) rg = delFold t (regDel rg p.1 (some p.2)) from rfl]
    apply ih
    rw [regLookup_regDel]
    by_cases hc : name = p.1 ∧ k = some p.2
    · simp [hc]
    · simp [hc, h]

theorem delFold_lookup_mem (n : String) (o : String) :
    ∀ (dels : List (String × String)) (rg : List (String × RegBucket)),
      (n, o) ∈ dels →
      regLookup (delFold dels rg) n (some o) = none := by
  intro dels
  induction dels with
  | nil => intro rg h; simp at h
  | cons p t ih =>
    intro rg h
    rw [show delFold (p :: t) rg = delFold t (regDel rg p.1 (some p.2)) from rfl]
    rcases List.mem_cons.mp h with heq | hmem
    · apply delFold_lookup_none
      rw [← heq, regLookup_regDel]
      simp
    · exact ih _ hmem

theorem delFoldU_lookup_mem (d : UDoc) (name : String) (v : String)
    (hv : getData d name = some v) :
    ∀ (l : List String) (rg : List (String × RegBucket)),
      name ∈ l →
      regLookup (delFoldU d l rg) name (some v) = none := by
  have pres : ∀ (l : List String) (rg : List (String × RegBucket)),
      regLookup rg name (some v) = none →
      regLookup (delFoldU d l rg) name (some v) = none := by
    intro l
    induction l with
    | nil => intro rg h; simpa [delFoldU] using h
    | cons n t ih =>
      intro rg h
      rw [show delFoldU d (n :: t) rg
            = delFoldU d t
                (match getData d n with
                 | some u => regDel rg n (some u)
                 | none => rg) from rfl]
      apply ih
      cases hg : getData d n with
      | none => simpa [hg] using h
      | some u =>
        simp only [hg]
        rw [regLookup_regDel]
        by_cases hc : name = n ∧ (some v : Option String) = some u
        · simp [hc]
        · simp [hc, h]
  intro l
  induction l with
  | nil => intro rg h; simp at h
  | cons n t ih =>
    intro rg h
    rw [show delFoldU d (n :: t) rg
          = delFoldU d t
              (match getData d n with
               | some u => regDel rg n (some u)
               | none => rg) from rfl]
    rcases List.mem_cons.mp h with heq | hmem
    · subst heq
      apply pres
      rw [hv]
      rw [regLookup_regDel]
      simp
    · exact ih _ hmem

/-! ## Lemmas about the unique-reconciliation loop -/

theorem uniqDels_spec (d : UDoc) (name : String) :
    ∀ p ∈ uniqDels d name, p.1 = name ∧ some p.2 ≠ getData d name := by
  intro p hp
  cases hobj : d.obj with
  | none => simp [uniqDels, hobj] at hp
  | some r =>
    cases hg : getData d name with
    | none =>
      cases hr : getRec r name with
      | none => simp [uniqDels, hobj, hg, hr] at hp
      | some ov =>
        simp only [uniqDels, hobj, hg, hr, List.mem_singleton] at hp
        subst hp
        simp [hg]
    | some v =>
      cases hr : getRec r name with
      | none => simp [uniqDels, hobj, hg, hr] at hp
      | some ov =>
        by_cases hvo : v = ov
        · simp [uniqDels, hobj, hg, hr, hvo] at hp
        · simp only [uniqDels, hobj, hg, hr, if_pos hvo, ne_eq, hvo,
            not_false_iff, if_true, List.mem_singleton] at hp
          subst hp
          refine ⟨rfl, fun he => hvo ?_⟩
          exact (Option.some.inj he).symm

theorem uniqPhase_error (rg : List (String × RegBucket)) (d : UDoc) :
    ∀ (l : List String) (e : UErr),
      uniqPhase rg d l = .error e → e = .valueErr := by
  intro l
  induction l with
  | nil => intro e h; simp [uniqPhase] at h
  | cons n t ih =>
    intro e h
    rw [uniqPhase] at h
    by_cases hc : (getData d n).isSome ∧ uniqChanged d n
        ∧ (regLookup rg n (getData d n)).isSome
    · rw [if_pos hc] at h
      exact (Except.error.inj h).symm
    · rw [if_neg hc] at h
      cases hq : uniqPhase rg d t with
      | error e2 =>
        rw [hq] at h
        simp [Except.map] at h
        subst h
        exact ih e2 hq
      | ok dels =>
        rw [hq] at h
        simp [Except.map] at h

theorem uniqPhase_dels (rg : List (String × RegBucket)) (d : UDoc) :
    ∀ (l : List String) (dels : List (String × String)),
      uniqPhase rg d l = .ok dels →
      ∀ p ∈ dels, p.1 ∈ l ∧ some p.2 ≠ getData d p.1 := by
  intro l
  induction l with
  | nil =>
    intro dels h
    simp [uniqPhase] at h
    subst h
    intro p hp
    simp at hp
  | cons n t ih =>
    intro dels h
    rw [uniqPhase] at h
    by_cases hc : (getData d n).isSome ∧ uniqChanged d n
        ∧ (regLookup rg n (getData d n)).isSome
    · rw [if_pos hc] at h
      simp at h
    · rw [if_neg hc] at h
      cases hq : uniqPhase rg d t with
      | error e2 => rw [hq] at h; simp [Except.map] at h
      | ok t1 =>
        rw [hq] at h
        simp only [Except.map] at h
        have hd : dels = uniqDels d n ++ t1 := (Except.ok.inj h).symm
        subst hd
        intro p hp
        rcases List.mem_append.mp hp with hp1 | hp2
        · obtain ⟨h1, h2⟩ := uniqDels_spec d n p hp1
          exact ⟨by rw [h1]; exact List.mem_cons_self n t, by rw [h1]; exact h2⟩
        · obtain ⟨h1, h2⟩ := ih t1 hq p hp2
          exact ⟨List.mem_cons_of_mem n h1, h2⟩

theorem uniqPhase_ok_of_clear (rg : List (String × RegBucket)) (d : UDoc) :
    ∀ (l : List String),
      (∀ name ∈ l, ∀ v, getData d name = some v →
        regLookup rg name (some v) = none) →
      ∃ dels, uniqPhase rg d l = .ok dels := by
  intro l
  induction l with
  | nil => intro _; exact ⟨[], rfl⟩
  | cons n t ih =>
    intro h
    obtain ⟨dels, hq⟩ := ih (fun m hm => h m (List.mem_cons_of_mem n hm))
    refine ⟨uniqDels d n ++ dels, ?_⟩
    rw [uniqPhase]
    have hc : ¬ ((getData d n).isSome ∧ uniqChanged d n
        ∧ (regLookup rg n (getData d n)).isSome) := by
      rintro ⟨h1, _, h3⟩
      cases hg : getData d n with
      | none => rw [hg] at h1; simp at h1
      | some v =>
        have := h n (List.mem_cons_self n t) v hg
        rw [hg] at h3
        rw [this] at h3
        simp at h3
    rw [if_neg hc, hq]
    rfl

/-! ## Shape lemmas for the lifecycle operations -/

theorem saveU_of_ok (u : List String) (i : Nat) (w : UWorld) (d : UDoc)
    (dels : List (String × String)) (hd : alookup w.heap i = some d)
    (hq : uniqPhase w.reg d u = .ok dels) :
    saveU u i w =
      (none,
       { w with main := aset w.main d.key d.data,
                reg := delFold dels (insFold d u w.reg),
                heap := aset w.heap i
                  { d with obj := some d.data, saved := true } }) := by
  simp [saveU, hd, hq]

theorem deleteU_of_persisted (u : List String) (i : Nat) (w : UWorld)
    (d : UDoc) (r0 : Rec) (hd : alookup w.heap i = some d)
    (hobj : d.obj = some r0) :
    deleteU u i w =
      { w with instances := adel w.instances d.key,
               main := adel w.main d.key,
               reg := delFoldU d u w.reg,
               heap := aset w.heap i
                 { d with obj := none, saved := false } } := by
  simp [deleteU, hd, hobj]

theorem delete_then_save (u : List String) (i : Nat) (w : UWorld) (d : UDoc)
    (r0 : Rec) (hd : alookup w.heap i = some d) (hobj : d.obj = some r0) :
    (saveU u i (deleteU u i w)).1 = none ∧
    alookup (saveU u i (deleteU u i w)).2.main d.key = some d.data ∧
    (saveU u i (deleteU u i w)).2.instances = adel w.instances d.key ∧
    (saveU u i (deleteU u i w)).2.nextId = w.nextId ∧
    alookup (saveU u i (deleteU u i w)).2.heap i =
      some { d with obj := some d.data, saved := true } := by
  have hw1 := deleteU_of_persisted u i w d r0 hd hobj
  set d1 : UDoc := { d with obj := none, saved := false } with hd1def
  have hd1 : alookup (deleteU u i w).heap i = some d1 := by
    rw [hw1]
    exact alookup_aset_self w.heap i d1
  have hclear : ∀ name ∈ u, ∀ v, getData d1 name = some v →
      regLookup (deleteU u i w).reg name (some v) = none := by
    intro name hn v hv
    rw [hw1]
    have hv2 : getData d name = some v := hv
    exact delFoldU_lookup_mem d name v hv2 u w.reg hn
  obtain ⟨dels, hq⟩ := uniqPhase_ok_of_clear (deleteU u i w).reg d1 u hclear
  have hs := saveU_of_ok u i (deleteU u i w) d1 dels hd1 hq
  rw [hs]
  refine ⟨rfl, ?_, ?_, ?_, ?_⟩
  · show alookup (aset (deleteU u i w).main d1.key d1.data) d.key = some d.data
    exact alookup_aset_self _ _ _
  · rw [hw1]
  · rw [hw1]
  · show alookup (aset (deleteU u i w).heap i
        { d1 with obj := some d1.data, saved := true }) i = _
    rw [alookup_aset_self]

theorem loadU_hit (key : String) (i : Nat) (w : UWorld)
    (hc : alookup w.instances key = some i) :
    loadU key true w = (.ok i, w) := by
  simp [loadU, hc]

theorem loadU_miss (key : String) (w : UWorld) (r : Rec)
    (h1 : alookup w.instances key = none) (h2 : alookup w.main key = some r) :
    loadU key true w =
      (.ok w.nextId,
       { w with
           heap := aset (aset w.heap w.nextId ⟨w.nextId, key, [], some r, true⟩)
             w.nextId ⟨w.nextId, key, r, some r, true⟩,
           instances := aset (aset w.instances key w.nextId) key w.nextId,
           nextId := w.nextId + 1 }) := by
  simp [loadU, initU, resolveKey, h1, h2]

/-! ## Lemmas about the reference world -/

theorem getA_eq (w : RWorld) (i : Nat) (a : ADoc)
    (hA : alookup w.heapA i = some a) : getA w i = a := by
  simp [getA, hA]

theorem getB_eq (w : RWorld) (j : Nat) (b : BDoc)
    (hB : alookup w.heapB j = some b) : getB w j = b := by
  simp [getB, hB]

theorem keyOfA_aset_eq (w w' : RWorld) (i : Nat) (a a1 : ADoc)
    (hA : alookup w.heapA i = some a) (hk : a1.key = a.key)
    (hh : w'.heapA = aset w.heapA i a1) (x : Nat) :
    keyOfA w' x = keyOfA w x := by
  by_cases hx : x = i
  · subst hx
    simp [keyOfA, getA, hh, hA, hk]
  · simp [keyOfA, getA, hh, alookup_aset_ne _ _ _ _ hx]

theorem countKeyA_congr (w w' : RWorld) (k : String) (l : List Nat)
    (h : ∀ ai, keyOfA w' ai = keyOfA w ai) :
    countKeyA w' k l = countKeyA w k l := by
  unfold countKeyA
  exact List.countP_congr (fun a _ => by rw [h a])

theorem popFirstKey_none_count (w : RWorld) (sk : String) :
    ∀ l, popFirstKey w sk l = none → countKeyA w sk l = 0 := by
  intro l
  induction l with
  | nil => intro _; rfl
  | cons ai t ih =>
    intro h
    unfold popFirstKey at h
    by_cases hf : (keyOfA w ai == sk) = true
    · rw [if_pos hf] at h
      cases h
    · rw [if_neg hf] at h
      cases hp : popFirstKey w sk t with
      | some l1 =>
        rw [hp] at h
        simp [Option.map] at h
      | none =>
        have h0 := ih hp
        unfold countKeyA at h0 ⊢
        rw [List.countP_cons, h0]
        simp [hf]

theorem popFirstKey_some_count (w : RWorld) (sk : String) :
    ∀ l l1, popFirstKey w sk l = some l1 →
      countKeyA w sk l = countKeyA w sk l1 + 1 := by
  intro l
  induction l with
  | nil => intro l1 h; cases h
  | cons ai t ih =>
    intro l1 h
    unfold popFirstKey at h
    by_cases hf : (keyOfA w ai == sk) = true
    · rw [if_pos hf] at h
      have hl : t = l1 := Option.some.inj h
      subst hl
      unfold countKeyA
      rw [List.countP_cons]
      simp [hf]
    · rw [if_neg hf] at h
      cases hp : popFirstKey w sk t with
      | none =>
        rw [hp] at h
        cases h
      | some t1 =>
        rw [hp] at h
        have hl : l1 = ai :: t1 := (Option.some.inj h).symm
        subst hl
        have h0 := ih t1 hp
        unfold countKeyA at h0 ⊢
        rw [List.countP_cons, List.countP_cons, h0]
        simp [hf]

theorem removePrev_subset (fuel : Nat) (sk : String) (dockeys : List String) :
    ∀ (l : List String) (w : RWorld), (∀ x ∈ l, x ∈ dockeys) →
      removePrev fuel sk dockeys l w = (w, []) := by
  intro l
  induction l with
  | nil => intro w _; rfl
  | cons bk t ih =>
    intro w h
    unfold removePrev
    rw [if_pos (h bk (List.mem_cons_self bk t))]
    exact ih w (fun x hx => h x (List.mem_cons_of_mem bk hx))

theorem loadBC_hit (fuel : Nat) (k : String) (w : RWorld) (j : Nat)
    (hc : alookup w.cacheB k = some j) : loadBC fuel k w = (.ok j, w) := by
  unfold loadBC
  rw [hc]

theorem loadBC_gone (fuel : Nat) (k : String) (w : RWorld)
    (hc : alookup w.cacheB k = none) (hs : alookup w.bucketB k = none) :
    loadBC fuel k w = (.error .notFound, w) := by
  unfold loadBC
  rw [hc, hs]

/-! ## Scenario lemmas for save in the reference world -/

theorem saveA_forward_count (fuel i j : Nat) (w : RWorld) (a : ADoc)
    (b : BDoc) (hA : alookup w.heapA i = some a) (hbr : a.bref = some j)
    (hB : alookup w.heapB j = some b)
    (hprev : a.obj = none ∨ a.obj = some none
      ∨ a.obj = some (some (keyOfB w j)))
    (hcount : countKeyA w a.key b.items ≤ 1) :
    countKeyA (saveA fuel i w) a.key (getB (saveA fuel i w) j).items = 1 := by
  have hga : getA w i = a := getA_eq w i a hA
  have hgb : getB w j = b := getB_eq w j b hB
  have hrem : ∀ w0 : RWorld,
      removePrev fuel a.key [keyOfB w j] (origOf a) w0 = (w0, []) := by
    intro w0
    rcases hprev with hobj | hobj | hobj <;> simp only [origOf, hobj]
    · rfl
    · rfl
    · exact removePrev_subset fuel a.key [keyOfB w j] [keyOfB w j] w0
        (fun x hx => hx)
  have hheapA : (saveA fuel i w).heapA
      = aset w.heapA i { a with obj := some (some (keyOfB w j)),
                                saved := true } := by
    cases hfound : b.items.any (fun ai => keyOfA w ai == a.key) <;>
      simp only [saveA, saveB, hga, hgb, hbr, hfound, hrem, Option.map_some',
        if_true, if_false, Bool.false_eq_true, List.nil_append,
        List.append_nil, List.foldl_cons, List.foldl_nil]
  have hkeys : ∀ x, keyOfA (saveA fuel i w) x = keyOfA w x :=
    fun x => keyOfA_aset_eq w (saveA fuel i w) i a
      { a with obj := some (some (keyOfB w j)), saved := true }
      hA rfl hheapA x
  cases hfound : b.items.any (fun ai => keyOfA w ai == a.key) with
  | true =>
    have hitems : (getB (saveA fuel i w) j).items = b.items := by
      simp only [saveA, saveB, hga, hgb, hbr, hfound, hrem, Option.map_some',
        if_true, List.nil_append, List.append_nil, List.foldl_nil]
      simp [getB, hB]
    rw [hitems, countKeyA_congr w (saveA fuel i w) a.key b.items hkeys]
    have hpos : 0 < countKeyA w a.key b.items := by
      unfold countKeyA
      rw [List.countP_pos_iff]
      exact List.any_eq_true.mp hfound
    omega
  | false =>
    have hitems : (getB (saveA fuel i w) j).items = b.items ++ [i] := by
      simp only [saveA, saveB, hga, hgb, hbr, hfound, hrem, Option.map_some',
        Bool.false_eq_true, if_false, List.nil_append, List.append_nil,
        List.foldl_cons, List.foldl_nil]
      simp [getB, alookup_aset_self]
    rw [hitems, countKeyA_congr w (saveA fuel i w) a.key _ hkeys]
    have h0 : List.countP (fun ai => keyOfA w ai == a.key) b.items = 0 := by
      rw [List.countP_eq_zero]
      intro x hx
      simpa using List.any_eq_false.mp hfound x hx
    unfold countKeyA
    rw [List.countP_append, h0]
    simp [List.countP_cons, keyOfA, hga]

theorem saveA_drop_count (fuel i jj : Nat) (w : RWorld) (a : ADoc)
    (b : BDoc) (bk : String) (hA : alookup w.heapA i = some a)
    (hbr : a.bref = none) (hobj : a.obj = some (some bk))
    (hc : alookup w.cacheB bk = some jj) (hB : alookup w.heapB jj = some b)
    (hcount : countKeyA w a.key b.items ≤ 1) :
    countKeyA (saveA fuel i w) a.key (getB (saveA fuel i w) jj).items = 0 := by
  have hga : getA w i = a := getA_eq w i a hA
  have hgb : getB w jj = b := getB_eq w jj b hB
  cases hpop : popFirstKey w a.key b.items with
  | none =>
    have hrp : removePrev fuel a.key [] [bk] w = (w, []) := by
      unfold removePrev
      rw [if_neg (List.not_mem_nil bk), loadBC_hit fuel bk w jj hc]
      simp [hgb, hpop, removePrev]
    have hheapA : (saveA fuel i w).heapA
        = aset w.heapA i { a with obj := some none, saved := true } := by
      simp [saveA, hga, hbr, hobj, origOf, hrp]
    have hkeys : ∀ x, keyOfA (saveA fuel i w) x = keyOfA w x :=
      fun x => keyOfA_aset_eq w (saveA fuel i w) i a
        { a with obj := some none, saved := true } hA rfl hheapA x
    have hitems : (getB (saveA fuel i w) jj).items = b.items := by
      simp [saveA, getB, hga, hgb, hbr, hobj, origOf, hrp, hB]
    rw [hitems, countKeyA_congr w (saveA fuel i w) a.key b.items hkeys]
    exact popFirstKey_none_count w a.key b.items hpop
  | some items1 =>
    have hrp : removePrev fuel a.key [] [bk] w
        = ({ w with heapB := aset w.heapB jj { b with items := items1 } },
           [jj]) := by
      unfold removePrev
      rw [if_neg (List.not_mem_nil bk), loadBC_hit fuel bk w jj hc]
      simp [hgb, hpop, removePrev]
    have hheapA : (saveA fuel i w).heapA
        = aset w.heapA i { a with obj := some none, saved := true } := by
      simp [saveA, saveB, hga, hbr, hobj, origOf, hrp]
    have hkeys : ∀ x, keyOfA (saveA fuel i w) x = keyOfA w x :=
      fun x => keyOfA_aset_eq w (saveA fuel i w) i a
        { a with obj := some none, saved := true } hA rfl hheapA x
    have hitems : (getB (saveA fuel i w) jj).items = items1 := by
      simp [saveA, saveB, getB, hga, hgb, hbr, hobj, origOf, hrp]
    rw [hitems, countKeyA_congr w (saveA fuel i w) a.key items1 hkeys]
    have hc1 := popFirstKey_some_count w a.key b.items items1 hpop
    omega

theorem saveA_vanished (fuel i : Nat) (w : RWorld) (a : ADoc) (bk : String)
    (hA : alookup w.heapA i = some a) (hbr : a.bref = none)
    (hobj : a.obj = some (some bk)) (hc : alookup w.cacheB bk = none)
    (hs : alookup w.bucketB bk = none) :
    saveA fuel i w =
      { w with bucketA := aset w.bucketA a.key none,
               heapA := aset w.heapA i
                 { a with obj := some none, saved := true } } := by
  have hga : getA w i = a := getA_eq w i a hA
  have hrp : removePrev fuel a.key [] [bk] w = (w, []) := by
    unfold removePrev
    rw [if_neg (List.not_mem_nil bk), loadBC_gone fuel bk w hc hs]
    simp [removePrev]
  simp [saveA, hga, hbr, hobj, origOf, hrp]

/-- C2 (code bug).  The claim (spec §4.4) requires the registry
existence check to fire whenever a unique field's non-nil current value
differs from the backing record's value, *including* a nil previous
value on a persisted document.  Evaluating `save` at exactly that input
(`c2World`: persisted document `a`, previous `email` nil, current
`email` `"x"`, live registry entry for `"x"` owned by `b`) shows the
code skips the check: the save succeeds with no error and silently
overwrites `b`'s registry entry, because line 183's
`originalValue is not None` conjunct leaves `changed` false. -/
theorem c2_nil_previous_eval :
    getRec [("email", none)] "email" = none ∧
    regLookup c2World.reg "email" (some "x") = some "b" ∧
    (saveU ["email"] 0 c2World).1 = none ∧
    regLookup (saveU ["email"] 0 c2World).2.reg "email" (some "x") = some "a" :=
  ⟨rfl, rfl, rfl, rfl⟩

/-- C3 (confirmed).  When `save` raises the unique-constraint error, the
world it returns is exactly the input world: the main record was not
committed, the document (heap), the identity cache and every registry
bucket — in particular the existing owner's entry — are unchanged, and
the error is the `ValueError` of line 190 (the spec's
`UniqueConstraintError`).  The check runs before any write. -/
theorem c3_error_means_no_write (u : List String) (i : Nat) (w : UWorld)
    (e : UErr) (h : (saveU u i w).1 = some e) :
    (saveU u i w).2 = w ∧ e = UErr.valueErr := by
  cases hq : uniqPhase w.reg ((alookup w.heap i).getD dummyU) u with
  | error e2 =>
    have hs : saveU u i w = (some e2, w) := by simp [saveU, hq]
    rw [hs] at h
    have he : e2 = e := Option.some.inj h
    subst he
    have hv := uniqPhase_error w.reg ((alookup w.heap i).getD dummyU) u e2 hq
    rw [hs]
    exact ⟨rfl, hv⟩
  | ok dels =>
    have hs : (saveU u i w).1 = none := by simp [saveU, hq]
    rw [hs] at h
    cases h

/-- C3 witness: an unpersisted document whose unique value collides with
a live registry entry makes `save` raise, and the theorem applies. -/
theorem c3_witness :
    (saveU ["u"] 0 c3World).1 = some UErr.valueErr ∧
    ((saveU ["u"] 0 c3World).2 = c3World ∧ UErr.valueErr = UErr.valueErr) :=
  ⟨rfl, c3_error_means_no_write ["u"] 0 c3World UErr.valueErr rfl⟩

/-- C4 counterexample.  The claim says a unique field whose value is
unchanged since the backing record gets no registry write during save.
At `c4World` the field `u` is unchanged (`"x"` both in memory and in
the backing record) and the registry entry for `"x"` is owned by `b`;
after the save the entry's owner is `a` — a registry write happened for
the unchanged field (lines 260-262 write every unique field). -/
theorem c4_counterexample :
    getRec [("u", some "x")] "u" = some "x" ∧
    getData ⟨0, "a", [("u", some "x")], some [("u", some "x")], true⟩ "u"
      = some "x" ∧
    regLookup c4World.reg "u" (some "x") = some "b" ∧
    (saveU ["u"] 0 c4World).1 = none ∧
    regLookup (saveU ["u"] 0 c4World).2.reg "u" (some "x") = some "a" :=
  ⟨rfl, rfl, rfl, rfl, rfl⟩

/-- C4 (corrected).  What a non-erroring save actually does to the
registry: a registry entry pointing at the saving document is written
for *every* unique field's current value — changed or unchanged, even
the nil value — and the superseded previous values scheduled by the
reconciliation loop end up deleted; the main record is committed under
the document's key.  (In the embedded `saveU` the registry writes follow
the main-record commit and the deletions follow the writes, mirroring
lines 259-265.) -/
theorem c4_registry_commit (u : List String) (i : Nat) (w : UWorld)
    (d : UDoc) (dels : List (String × String))
    (hd : alookup w.heap i = some d) (hq : uniqPhase w.reg d u = .ok dels) :
    (saveU u i w).1 = none ∧
    (∀ name ∈ u,
      regLookup (saveU u i w).2.reg name (getData d name) = some d.key) ∧
    (∀ p ∈ dels, regLookup (saveU u i w).2.reg p.1 (some p.2) = none) ∧
    alookup (saveU u i w).2.main d.key = some d.data := by
  have hs := saveU_of_ok u i w d dels hd hq
  rw [hs]
  refine ⟨rfl, ?_, ?_, ?_⟩
  · intro name hn
    show regLookup (delFold dels (insFold d u w.reg)) name (getData d name)
      = some d.key
    rw [delFold_lookup_ne name (getData d name) dels _ ?_]
    · rw [insFold_lookup d name u w.reg, if_pos hn]
    · intro p hp h1
      have h2 := (uniqPhase_dels w.reg d u dels hq p hp).2
      rw [h1] at h2
      exact h2
  · intro p hp
    show regLookup (delFold dels (insFold d u w.reg)) p.1 (some p.2) = none
    exact delFold_lookup_mem p.1 p.2 dels _ (by rwa [Prod.mk.eta])
  · exact alookup_aset_self _ _ _

/-- C4 witness: at `c4World` the reconciliation loop succeeds with no
scheduled deletions and the theorem applies. -/
theorem c4_witness :
    alookup c4World.heap 0
      = some ⟨0, "a", [("u", some "x")], some [("u", some "x")], true⟩ ∧
    uniqPhase c4World.reg
      ⟨0, "a", [("u", some "x")], some [("u", some "x")], true⟩ ["u"]
      = .ok [] ∧
    regLookup (saveU ["u"] 0 c4World).2.reg "u" (some "x") = some "a" :=
  ⟨rfl, rfl, by
    have h := (c4_registry_commit ["u"] 0 c4World
      ⟨0, "a", [("u", some "x")], some [("u", some "x")], true⟩ [] rfl rfl).2.1
    exact h "u" (List.mem_singleton.mpr rfl)⟩

/-- C6 counterexample.  The claim says that while a live instance for a
key is in the identity cache, `load` of that key *always* returns that
instance — with caching disabled, after a reload.  At `c6World` the
cache holds a live never-persisted instance (id 0) for key `k`, yet
`load("k", cached=False)` raises `NotFoundError` (propagated from
`reload`, line 295) instead of returning the instance. -/
theorem c6_counterexample :
    alookup c6World.instances "k" = some 0 ∧
    loadU "k" false c6World = (.error .notFound, c6World) :=
  ⟨rfl, rfl⟩

/-- C6 (corrected).  While a live instance for a key is in the identity
cache, `load` never constructs a new copy: with caching enabled the
cached instance is returned as-is with no store round-trip (the world is
untouched); with caching disabled the instance is first reloaded — which
fails with `NotFoundError` when the instance has no backing record — and
then the *same* instance is returned, the world changed only at that
instance's heap slot. -/
theorem c6_cache_identity (key : String) (i : Nat) (w : UWorld) (d : UDoc)
    (hc : alookup w.instances key = some i) (hd : alookup w.heap i = some d) :
    loadU key true w = (.ok i, w) ∧
    (d.obj = none → loadU key false w = (.error .notFound, w)) ∧
    (∀ r0 r, d.obj = some r0 → alookup w.main d.key = some r →
      loadU key false w =
        (.ok i,
         { w with
             heap := aset w.heap i
               { d with data := r, obj := some r, saved := true } })) := by
  refine ⟨loadU_hit key i w hc, ?_, ?_⟩
  · intro h
    simp [loadU, hc, reloadU, hd, h]
  · intro r0 r h hm
    simp [loadU, hc, reloadU, hd, h, hm]

/-- C6 witness: a cache hit on a persisted instance, both with and
without caching. -/
theorem c6_witness :
    alookup c6HitWorld.instances "k" = some 0 ∧
    loadU "k" true c6HitWorld = (.ok 0, c6HitWorld) ∧
    loadU "k" false c6HitWorld =
      (.ok 0,
       { c6HitWorld with
           heap := aset c6HitWorld.heap 0
             ⟨0, "k", [("u", some "x")], some [("u", some "x")], true⟩ }) :=
  ⟨rfl,
   (c6_cache_identity "k" 0 c6HitWorld
     ⟨0, "k", [("u", some "y")], some [("u", some "x")], true⟩ rfl rfl).1,
   (c6_cache_identity "k" 0 c6HitWorld
     ⟨0, "k", [("u", some "y")], some [("u", some "x")], true⟩ rfl rfl).2.2
     [("u", some "x")] [("u", some "x")] rfl rfl⟩

/-- C7 (confirmed).  `reload` fails with `NotFoundError` exactly when
the document holds no backing record (never persisted, or deleted);
otherwise it re-fetches the stored record and replaces the whole field
mapping with it — every field reverts to its stored value and unsaved
local mutations are discarded (the result does not depend on the
in-memory `data` at all). -/
theorem c7_reload_semantics (i : Nat) (w : UWorld) (d : UDoc)
    (hd : alookup w.heap i = some d) :
    (d.obj = none → reloadU i w = (some .notFound, w)) ∧
    (∀ r0 r, d.obj = some r0 → alookup w.main d.key = some r →
      reloadU i w =
        (none,
         { w with
             heap := aset w.heap i
               { d with data := r, obj := some r, saved := true } })) := by
  constructor
  · intro h
    simp [reloadU, hd, h]
  · intro r0 r h hm
    simp [reloadU, hd, h, hm]

/-- C7 witness: reloading a persisted document whose field was mutated
in memory reverts the field to the stored value; the never-persisted
direction is exercised by the same theorem on a stripped document. -/
theorem c7_witness :
    alookup c7World.heap 0
      = some ⟨0, "k", [("u", some "z")], some [("u", some "x")], true⟩ ∧
    reloadU 0 c7World =
      (none,
       { c7World with
           heap := aset c7World.heap 0
             ⟨0, "k", [("u", some "x")], some [("u", some "x")], true⟩ }) :=
  ⟨rfl,
   (c7_reload_semantics 0 c7World
     ⟨0, "k", [("u", some "z")], some [("u", some "x")], true⟩ rfl).2
     [("u", some "x")] [("u", some "x")] rfl rfl⟩

/-- C8 counterexample.  The claim says delete removes every
unique-registry entry the document *owns*.  At `c8World` document `a`
owns the entry `"x" → a` (its stored value), but its field was mutated
in memory to `"y"`, whose entry is owned by `b`.  After `a.delete()` the
owned entry `"x" → a` is still live and `b`'s entry `"y" → b` is gone:
lines 329-332 delete by current in-memory value, not by ownership. -/
theorem c8_counterexample :
    regLookup c8World.reg "u" (some "x") = some "a" ∧
    regLookup (deleteU ["u"] 0 c8World).reg "u" (some "x") = some "a" ∧
    regLookup (deleteU ["u"] 0 c8World).reg "u" (some "y") = none :=
  ⟨rfl, rfl, rfl⟩

/-- C8 (corrected).  `delete` on an unpersisted document is a strict
no-op.  On a persisted document it removes the key from the identity
cache, deletes the main record, deletes the registry entry keyed by each
unique field's *current in-memory value* (not necessarily an entry the
document owns), clears the backing record and the persisted flag while
leaving the field data intact, and the object can then be saved again:
the subsequent save succeeds and re-commits the record under the same
key. -/
theorem c8_delete_semantics (u : List String) (i : Nat) (w : UWorld)
    (d : UDoc) (hd : alookup w.heap i = some d) :
    (d.obj = none → deleteU u i w = w) ∧
    (∀ r0, d.obj = some r0 →
      alookup (deleteU u i w).instances d.key = none ∧
      alookup (deleteU u i w).main d.key = none ∧
      (∀ name ∈ u, ∀ v, getData d name = some v →
        regLookup (deleteU u i w).reg name (some v) = none) ∧
      alookup (deleteU u i w).heap i =
        some { d with obj := none, saved := false } ∧
      (saveU u i (deleteU u i w)).1 = none ∧
      alookup (saveU u i (deleteU u i w)).2.main d.key = some d.data) := by
  constructor
  · intro h
    simp [deleteU, hd, h]
  · intro r0 h
    have hw1 := deleteU_of_persisted u i w d r0 hd h
    obtain ⟨hs1, hs2, _, _, _⟩ := delete_then_save u i w d r0 hd h
    refine ⟨?_, ?_, ?_, ?_, hs1, hs2⟩
    · rw [hw1]
      exact alookup_adel_self w.instances d.key
    · rw [hw1]
      exact alookup_adel_self w.main d.key
    · intro name hn v hv
      rw [hw1]
      exact delFoldU_lookup_mem d name v hv u w.reg hn
    · rw [hw1]
      exact alookup_aset_self _ _ _

/-- C8 witness: deleting the persisted document of `c8World` and saving
it again. -/
theorem c8_witness :
    alookup c8World.heap 0
      = some ⟨0, "a", [("u", some "y")], some [("u", some "x")], true⟩ ∧
    alookup (deleteU ["u"] 0 c8World).instances "a" = none ∧
    (saveU ["u"] 0 (deleteU ["u"] 0 c8World)).1 = none :=
  ⟨rfl,
   ((c8_delete_semantics ["u"] 0 c8World
     ⟨0, "a", [("u", some "y")], some [("u", some "x")], true⟩ rfl).2
     [("u", some "x")] rfl).1,
   ((c8_delete_semantics ["u"] 0 c8World
     ⟨0, "a", [("u", some "y")], some [("u", some "x")], true⟩ rfl).2
     [("u", some "x")] rfl).2.2.2.2.1⟩

/-- C9 (confirmed).  Construction fails with `KeyError` exactly when the
resolved key (the generator applied to the initial fields, when a
generator was supplied) is not a string, or when the identity cache
already holds a live instance under that key; on success the fresh
instance is registered in the identity cache under its key. -/
theorem c9_construction (k : KeyIn) (fields : Rec) (saved : Bool)
    (w : UWorld) :
    (resolveKey k fields = .notStr →
      initU k fields saved w = (.error .keyError, w)) ∧
    (∀ s, resolveKey k fields = .str s →
      ((alookup w.instances s).isSome →
        initU k fields saved w = (.error .keyError, w)) ∧
      (alookup w.instances s = none →
        (initU k fields saved w).1 = .ok w.nextId ∧
        alookup (initU k fields saved w).2.instances s = some w.nextId ∧
        alookup (initU k fields saved w).2.heap w.nextId =
          some ⟨w.nextId, s, fields,
                if saved then some ((alookup w.main s).getD []) else none,
                saved⟩)) := by
  constructor
  · intro h
    simp [initU, h]
  · intro s h
    constructor
    · intro hs
      simp [initU, h, hs]
    · intro hs
      simp [initU, h, hs]

/-- C9 witness: a generator-supplied key succeeds on a fresh key and the
cache is populated; the occupied key `taken` fails with `KeyError`. -/
theorem c9_witness :
    resolveKey (.gen fun _ => KV.str "fresh") [] = KV.str "fresh" ∧
    alookup c9World.instances "fresh" = none ∧
    (initU (.gen fun _ => KV.str "fresh") [] false c9World).1 = .ok 8 ∧
    alookup (initU (.gen fun _ => KV.str "fresh") [] false c9World).2.instances
      "fresh" = some 8 ∧
    initU (.lit (.str "taken")) [] false c9World
      = (.error .keyError, c9World) :=
  ⟨rfl, rfl,
   (((c9_construction (.gen fun _ => KV.str "fresh") [] false c9World).2
     "fresh" rfl).2 rfl).1,
   (((c9_construction (.gen fun _ => KV.str "fresh") [] false c9World).2
     "fresh" rfl).2 rfl).2.1,
   ((c9_construction (.lit (.str "taken")) [] false c9World).2
     "taken" rfl).1 rfl⟩

/-- C10 (confirmed).  After `delete()` followed by a (successful)
`save()` on the same in-memory document, the record is committed again
under the original key but the identity cache no longer maps that key
(`save` never writes the cache); a subsequent cached `load` of the key
therefore misses the cache and constructs a *second* live instance — a
fresh identity distinct from the original instance, which still sits in
the heap — so two live instances share the stored key. -/
theorem c10_second_instance (u : List String) (i : Nat) (w : UWorld)
    (d : UDoc) (r0 : Rec) (hd : alookup w.heap i = some d)
    (hobj : d.obj = some r0) (hlt : i < w.nextId) :
    (saveU u i (deleteU u i w)).1 = none ∧
    alookup (saveU u i (deleteU u i w)).2.instances d.key = none ∧
    alookup (saveU u i (deleteU u i w)).2.main d.key = some d.data ∧
    (loadU d.key true (saveU u i (deleteU u i w)).2).1 = .ok w.nextId ∧
    w.nextId ≠ i ∧
    alookup (loadU d.key true (saveU u i (deleteU u i w)).2).2.heap w.nextId
      = some ⟨w.nextId, d.key, d.data, some d.data, true⟩ ∧
    alookup (loadU d.key true (saveU u i (deleteU u i w)).2).2.heap i
      = some { d with obj := some d.data, saved := true } ∧
    alookup (loadU d.key true (saveU u i (deleteU u i w)).2).2.instances d.key
      = some w.nextId := by
  obtain ⟨hs1, hs2, hs3, hs4, hs5⟩ := delete_then_save u i w d r0 hd hobj
  have hne : w.nextId ≠ i := Nat.ne_of_gt hlt
  have hinst : alookup (saveU u i (deleteU u i w)).2.instances d.key = none := by
    rw [hs3]
    exact alookup_adel_self w.instances d.key
  have hload := loadU_miss d.key (saveU u i (deleteU u i w)).2 d.data hinst hs2
  rw [hs4] at hload
  rw [hload]
  refine ⟨hs1, hinst, hs2, rfl, hne, ?_, ?_, ?_⟩
  · exact alookup_aset_self _ _ _
  · rw [alookup_aset_ne _ _ _ _ (Ne.symm hne),
        alookup_aset_ne _ _ _ _ (Ne.symm hne)]
    exact hs5
  · exact alookup_aset_self _ _ _

/-- C10 witness: the delete-then-save-then-load cycle on `c10World`
yields instance 1 alongside the original instance 0, both keyed `k`. -/
theorem c10_witness :
    alookup c10World.heap 0
      = some ⟨0, "k", [("u", some "x")], some [("u", some "x")], true⟩ ∧
    (0 : Nat) < c10World.nextId ∧
    (loadU "k" true (saveU ["u"] 0 (deleteU ["u"] 0 c10World)).2).1
      = .ok 1 ∧
    alookup
      (loadU "k" true (saveU ["u"] 0 (deleteU ["u"] 0 c10World)).2).2.heap 1
      = some ⟨1, "k", [("u", some "x")], some [("u", some "x")], true⟩ :=
  ⟨rfl, by decide,
   (c10_second_instance ["u"] 0 c10World
     ⟨0, "k", [("u", some "x")], some [("u", some "x")], true⟩
     [("u", some "x")] rfl rfl (by decide)).2.2.2.1,
   (c10_second_instance ["u"] 0 c10World
     ⟨0, "k", [("u", some "x")], some [("u", some "x")], true⟩
     [("u", some "x")] rfl rfl (by decide)).2.2.2.2.2.1⟩

/-- C1 (code bug).  The claim says the subtype's declared property
descriptor overrides the ancestor's descriptor on a field-name
collision.  Evaluating the metadata merge of
`DocumentMetaclass.__new__` at a one-field collision (ancestor `_meta`
maps `x` to descriptor tag 1, subtype declares `x` with tag 2) shows
the opposite: the ancestor's descriptor survives, because
`meta.update(p_cls._meta)` runs after the subtype's own properties were
inserted into `meta`; and the collected unique field names are simply
concatenated (own first, ancestors appended), so a colliding name
appears twice rather than being overridden. -/
theorem c1_meta_merge_eval :
    alookup (buildMeta [("x", ⟨2⟩)] [[("x", ⟨1⟩)]]) "x" = some ⟨1⟩ ∧
    (⟨1⟩ : PropD) ≠ ⟨2⟩ ∧
    buildUniques ["x"] [["x"]] = ["x", "x"] :=
  ⟨rfl, by decide, rfl⟩

/-- C5 (confirmed).  Back-reference membership is keyed by document key
and kept duplicate-free: (1) after `A.save()` where `A` references the
live `B` instance (and previously referenced `B` or nothing), `B`'s
`items` collection holds exactly one member with `A`'s key — the
forward pass appends only when the linear key search finds no member;
(2) after `A` drops the reference and saves again, `B`'s collection
holds no member with `A`'s key — the removal pass pops the matching
member of the cached `B`; (3) a previously-referenced target that has
vanished from cache and store is tolerated: the save completes, commits
`A`'s record, and changes nothing else. -/
theorem c5_backref_membership :
    (∀ (fuel i j : Nat) (w : RWorld) (a : ADoc) (b : BDoc),
      alookup w.heapA i = some a → a.bref = some j →
      alookup w.heapB j = some b →
      (a.obj = none ∨ a.obj = some none
        ∨ a.obj = some (some (keyOfB w j))) →
      countKeyA w a.key b.items ≤ 1 →
      countKeyA (saveA fuel i w) a.key (getB (saveA fuel i w) j).items = 1) ∧
    (∀ (fuel i jj : Nat) (w : RWorld) (a : ADoc) (b : BDoc) (bk : String),
      alookup w.heapA i = some a → a.bref = none →
      a.obj = some (some bk) → alookup w.cacheB bk = some jj →
      alookup w.heapB jj = some b →
      countKeyA w a.key b.items ≤ 1 →
      countKeyA (saveA fuel i w) a.key (getB (saveA fuel i w) jj).items = 0) ∧
    (∀ (fuel i : Nat) (w : RWorld) (a : ADoc) (bk : String),
      alookup w.heapA i = some a → a.bref = none →
      a.obj = some (some bk) → alookup w.cacheB bk = none →
      alookup w.bucketB bk = none →
      saveA fuel i w =
        { w with bucketA := aset w.bucketA a.key none,
                 heapA := aset w.heapA i
                   { a with obj := some none, saved := true } }) :=
  ⟨fun fuel i j w a b hA hbr hB hprev hcount =>
     saveA_forward_count fuel i j w a b hA hbr hB hprev hcount,
   fun fuel i jj w a b bk hA hbr hobj hc hB hcount =>
     saveA_drop_count fuel i jj w a b bk hA hbr hobj hc hB hcount,
   fun fuel i w a bk hA hbr hobj hc hs =>
     saveA_vanished fuel i w a bk hA hbr hobj hc hs⟩

/-- C5 witness: the three scenarios evaluated on the concrete worlds —
forward reference (`c5World`), dropped reference (`c5DropWorld`) and
vanished target (`c5GoneWorld`). -/
theorem c5_witness :
    alookup c5World.heapA 0 = some ⟨0, "a", some 1, none, false⟩ ∧
    countKeyA (saveA 1 0 c5World) "a" (getB (saveA 1 0 c5World) 1).items
      = 1 ∧
    alookup c5DropWorld.heapA 0 = some ⟨0, "a", none, some (some "b"), true⟩ ∧
    countKeyA (saveA 1 0 c5DropWorld) "a"
      (getB (saveA 1 0 c5DropWorld) 1).items = 0 ∧
    saveA 1 0 c5GoneWorld =
      { c5GoneWorld with
          bucketA := aset c5GoneWorld.bucketA "a" none,
          heapA := aset c5GoneWorld.heapA 0 ⟨0, "a", none, some none, true⟩ } :=
  ⟨rfl,
   c5_backref_membership.1 1 0 1 c5World ⟨0, "a", some 1, none, false⟩
     ⟨1, "b", [], some [], true⟩ rfl rfl rfl (Or.inl rfl) (by decide),
   rfl,
   c5_backref_membership.2.1 1 0 1 c5DropWorld
     ⟨0, "a", none, some (some "b"), true⟩ ⟨1, "b", [0], some ["a"], true⟩
     "b" rfl rfl rfl rfl rfl (by decide),
   c5_backref_membership.2.2 1 0 c5GoneWorld
     ⟨0, "a", none, some (some "gone"), true⟩ "gone" rfl rfl rfl rfl rfl⟩

end Riakkit
